import Mathlib

/-!
Shallow embedding of `just_doi_it.py` (a Streamlit app that fetches the
reference lists of user-supplied DOIs from Crossref, deduplicates them with
provenance tracking, enriches each with metadata and a formatted citation,
and exports a user-selected subset).

Python strings are modelled as `String` / `List Char`; Python whitespace
(`str.strip`) as the six ASCII whitespace characters; network calls as
explicit oracle functions returning `Option` / `Except`; Python dicts that
are only used for membership/lookup as association lists (insertion
ordered, as CPython dicts are) or as `Finset`-valued functions.
-/

namespace JustDoiIt

/-- The six characters Python's `str.strip()` removes for ASCII input:
space, tab, newline, carriage return, vertical tab, form feed. -/
def isPySpace (c : Char) : Bool :=
  c == ' ' || c == '\t' || c == '\n' || c == '\r' ||
    c == Char.ofNat 11 || c == Char.ofNat 12

/-- Python `s.lstrip()` on the character list. -/
def lstripL (l : List Char) : List Char := l.dropWhile isPySpace

/-- Python `s.rstrip()` on the character list. -/
def rstripL (l : List Char) : List Char := (l.reverse.dropWhile isPySpace).reverse

/-- Python `s.strip()` on the character list. -/
def stripL (l : List Char) : List Char := rstripL (lstripL l)

/-- Python `s.strip()` on strings. -/
def pyStrip (s : String) : String := ⟨stripL s.data⟩

/-- `MAX_TITLE_LENGTH = 90` (module-level constant of the source). -/
def MAX_TITLE_LENGTH : Nat := 90

/-- Core of `short`: `s = s.strip(); return s if len(s) <= n else s[:n].rstrip() + "…"`. -/
def shortL (n : Nat) (l : List Char) : List Char :=
  let t := stripL l
  if t.length ≤ n then t else rstripL (t.take n) ++ ['…']

/-- `short(s, n=MAX_TITLE_LENGTH)` from the source. -/
def short (s : String) : String := ⟨shortL MAX_TITLE_LENGTH s.data⟩

/-- The separator class of `re.split(r"[,\n;\t ]+", ...)` in `parse_seed_inputs`. -/
def isSepChar (c : Char) : Bool :=
  c == ',' || c == '\n' || c == ';' || c == '\t' || c == ' '

/-- State machine for `re.split` on a run of separators: `some cur` means a
token `cur` (reversed) is being built, `none` means we are inside a
separator run whose closing empty token has already been emitted. -/
def splitRunsGo (p : Char → Bool) : List Char → Option (List Char) → List (List Char)
  | [], none => [[]]
  | [], some cur => [cur.reverse]
  | c :: cs, none =>
    if p c then splitRunsGo p cs none else splitRunsGo p cs (some [c])
  | c :: cs, some cur =>
    if p c then cur.reverse :: splitRunsGo p cs none
    else splitRunsGo p cs (some (c :: cur))

/-- `re.split(r"[X]+", text)`: the segments of `text` between maximal runs
of separator characters (with empty boundary segments, as `re.split`
produces them). -/
def splitRuns (p : Char → Bool) (l : List Char) : List (List Char) :=
  splitRunsGo p l (some [])

/-- Python `pat in s` (substring containment), on character lists. -/
def containsSub (pat l : List Char) : Bool :=
  l.tails.any (fun t => pat.isPrefixOf t)

/-- The characters allowed in a URL scheme by `urllib.parse`
(ASCII letters, digits, `+`, `-`, `.`). -/
def isSchemeChar (c : Char) : Bool := c.isAlpha || c.isDigit || c == '+' || c == '-' || c == '.'

/-- Schemes for which `urlparse` splits `;params` off the path
(`urllib.parse.uses_params`, with `''` for the scheme-less case). -/
def usesParams : List (List Char) :=
  ["", "ftp", "hdl", "prospero", "http", "imap", "https", "shttp", "rtsp",
   "rtsps", "rtspu", "sip", "sips", "snews", "svn", "svn+ssh", "sftp",
   "nfs", "git", "git+ssh"].map String.data

/-- `urlsplit` scheme detection: the (lowercased) scheme and the rest of the
URL after `scheme:`, or an empty scheme and the unchanged URL. -/
def splitScheme (l : List Char) : List Char × List Char :=
  match l.findIdx? (fun c => c == ':') with
  | none => ([], l)
  | some i =>
    if 0 < i && (match l with | c :: _ => c.isAlpha | [] => false)
        && (l.take i).all isSchemeChar then
      ((l.take i).map Char.toLower, l.drop (i + 1))
    else ([], l)

/-- After the scheme: drop `//netloc` (netloc runs to the first of `/?#`),
then drop the fragment (after the first `#`) and the query (after the first
`?`); what remains is `urlsplit(...).path`. -/
def splitRest (u : List Char) : List Char :=
  let u1 := if u.take 2 = ['/', '/'] then
      (u.drop 2).dropWhile (fun c => !(c == '/' || c == '?' || c == '#'))
    else u
  let u2 := u1.takeWhile (fun c => c != '#')
  u2.takeWhile (fun c => c != '?')

/-- `_splitparams`: remove `;params` from the path — the split point is the
first `;` at or after the last `/` (or the first `;` when there is no `/`). -/
def splitParams (p : List Char) : List Char :=
  if p.contains '/' then
    let afterSlash := (p.reverse.takeWhile (fun c => c != '/')).reverse
    if afterSlash.contains ';' then
      p.take (p.length - afterSlash.length + (afterSlash.takeWhile (fun c => c != ';')).length)
    else p
  else p.takeWhile (fun c => c != ';')

/-- `urlparse(s).path`: scheme and netloc stripped, fragment and query
removed, and `;params` split off when the scheme uses parameters. -/
def urlparsePath (l : List Char) : List Char :=
  let sr := splitScheme l
  let p := splitRest sr.2
  if usesParams.contains sr.1 && p.contains ';' then splitParams p else p

/-- `extract_doi` from the source: strip, keep empty strings, and for
strings containing `doi.org` return `urlparse(s).path.lstrip("/")`. -/
def extract_doi (s : String) : String :=
  let t := pyStrip s
  if t = "" then t
  else if containsSub "doi.org".data t.data then
    ⟨(urlparsePath t.data).dropWhile (fun c => c == '/')⟩
  else t

/-- The loop of `parse_seed_inputs`: walk the split tokens keeping a `seen`
set, emitting each nonempty extracted DOI the first time it is seen. -/
def parseLoop (seen : List String) : List String → List String
  | [] => []
  | p :: ps =>
    let d := extract_doi p
    if d ≠ "" && !(seen.contains d) then d :: parseLoop (d :: seen) ps
    else parseLoop seen ps

/-- The token list `re.split(r"[,\n;\t ]+", raw.strip())` of `parse_seed_inputs`. -/
def seedTokens (raw : String) : List String :=
  (splitRuns isSepChar (stripL raw.data)).map (fun l => ⟨l⟩)

/-- `parse_seed_inputs` from the source: empty input short-circuits to `[]`,
otherwise split, extract, drop empties, dedupe keeping first-seen order. -/
def parse_seed_inputs (raw : String) : List String :=
  if raw = "" then [] else parseLoop [] (seedTokens raw)

/-! ### Data model -/

/-- One author record as built by `crossref_meta_for_doi`
(`{"given": given, "family": fam}`, either part possibly empty). -/
structure Author where
  given : String
  family : String
deriving DecidableEq, Repr

/-- The result of `crossref_meta_for_doi`: `{"authors": ..., "year": ..., "title": ...}`.
`year` is an integer or `None`, `title` a string or `None`. -/
structure Meta where
  authors : List Author
  year : Option Int
  title : Option String
deriving DecidableEq, Repr

/-- The registry's native reference record, restricted to the only field the
program reads from it (`"unstructured"`, a free-text fallback); `none` also
stands for a record without that key. -/
structure RegRef where
  unstructured : Option String
deriving DecidableEq, Repr

/-- One entry of `crossref_refs_for_work`'s result: `{"raw": ref, "doi": d}`. -/
structure RefEntry where
  raw : RegRef
  doi : String
deriving DecidableEq, Repr

/-- `authors_label` from the source: the family names that are non-empty,
rendered as `Unknown` / `A` / `A & B` / `A et al.`. -/
def authors_label (authors : List Author) : String :=
  match (authors.filter (fun a => a.family ≠ "")).map (fun a => a.family) with
  | [] => "Unknown"
  | [f] => f
  | [f, g] => f ++ " & " ++ g
  | f :: _ :: _ :: _ => f ++ " et al."

/-- Python `a or b` on strings: the first operand unless it is empty (falsy). -/
def pyOrS (a b : String) : String := if a = "" then b else a

/-- Python truthiness of an optional string (`None` and `""` are falsy),
collapsed to the string used by an `or` chain. -/
def optStr (o : Option String) : String := o.getD ""

/-- The fields of an item built by `fetch_item_for_doi`
(`{"doi": ..., "label": ..., "citation": ...}`). -/
structure ItemCore where
  doi : String
  label : String
  citation : String
deriving DecidableEq, Repr

/-- `fetch_item_for_doi` from the source, with the two network calls
(`crossref_meta_for_doi`, `formatted_citation`) as oracles returning
`none` on any raised exception: on success an item with the composed label
and the stripped citation, on any failure `none`. -/
def fetch_item_for_doi (metaOf : String → Option Meta)
    (citOf : String → String → Option String)
    (rdoi : String) (raw_ref : Option RegRef) (fmt : String) : Option ItemCore :=
  match metaOf rdoi with
  | none => none
  | some meta =>
    let a_lbl := authors_label meta.authors
    let y_lbl := match meta.year with
      | some y => if y = 0 then "n.d." else toString y
      | none => "n.d."
    let t_lbl := pyOrS (optStr meta.title)
      (pyOrS (optStr (raw_ref.bind (fun r => r.unstructured))) rdoi)
    let label := a_lbl ++ ", " ++ y_lbl ++ " — " ++ short t_lbl
    match citOf rdoi fmt with
    | none => none
    | some cit => some { doi := rdoi, label := label, citation := pyStrip cit }

/-! ### Stage 1: per-seed reference lists and the merge -/

/-- The partitioning loop over `results` (the list of `(seed, task-result)`
pairs in completion order): the per-seed errors, in completion order. -/
def stage1Errors (results : List (String × Except String (List RefEntry))) :
    List (String × String) :=
  results.filterMap (fun p => match p.2 with
    | .error e => some (p.1, e)
    | .ok _ => none)

/-- The partitioning loop over `results`: the `refs_by_seed` dict as an
insertion-ordered association list (CPython dicts preserve insertion
order, so iteration order is completion order). -/
def stage1RefsBySeed (results : List (String × Except String (List RefEntry))) :
    List (String × List RefEntry) :=
  results.filterMap (fun p => match p.2 with
    | .ok l => some (p.1, l)
    | .error _ => none)

/-- The merge state: `unique_raw_by_doi` as an insertion-ordered association
list and `seeds_for_doi` (a `defaultdict(set)`) as a `Finset`-valued map. -/
structure AggState where
  uniqueRaw : List (String × RegRef)
  seedsFor : String → Finset String
deriving Inhabited

/-- The body of the inner merge loop: skip references without a DOI, retain
the first raw form seen for a DOI, and always record the seed's provenance. -/
def mergeStep (seed : String) (st : AggState) (ref : RefEntry) : AggState :=
  if ref.doi = "" then st
  else
    { uniqueRaw :=
        match st.uniqueRaw.lookup ref.doi with
        | some _ => st.uniqueRaw
        | none => st.uniqueRaw ++ [(ref.doi, ref.raw)]
      seedsFor := fun d =>
        if d = ref.doi then insert seed (st.seedsFor d) else st.seedsFor d }

/-- The body of the outer merge loop: truncate the seed's reference list to
`limit` (`max_refs`) entries, then fold the inner loop over it. -/
def mergeSeed (limit : Nat) (st : AggState) (p : String × List RefEntry) : AggState :=
  (p.2.take limit).foldl (mergeStep p.1) st

/-- The whole merge (source lines building `unique_raw_by_doi` /
`seeds_for_doi`), iterating `refs_by_seed` in its dict order. -/
def aggregate (limit : Nat) (refsBySeed : List (String × List RefEntry)) : AggState :=
  refsBySeed.foldl (mergeSeed limit) ⟨[], fun _ => ∅⟩

/-! ### Stage 2: enrichment and the session's item list -/

/-- An element of `st.session_state["items"]`. -/
structure Item where
  doi : String
  label : String
  citation : String
  sources : Finset String
  id : Nat
deriving DecidableEq

/-- Stage 2 of a fetch: for each DOI in `completion` (the `as_completed`
order of the unique referenced DOIs), run `fetch_item_for_doi`; drop
failures; attach `seeds_for_doi[d]`; finally assign positional ids. -/
def buildItems (metaOf : String → Option Meta) (citOf : String → String → Option String)
    (fmt : String) (uniqueRaw : List (String × RegRef)) (seedsFor : String → Finset String)
    (completion : List String) : List Item :=
  let collected := completion.filterMap (fun d =>
    (fetch_item_for_doi metaOf citOf d (uniqueRaw.lookup d) fmt).map
      (fun c => (d, c)))
  collected.enum.map (fun p =>
    { doi := p.2.2.doi, label := p.2.2.label, citation := p.2.2.citation,
      sources := seedsFor p.2.1, id := p.1 })

/-! ### Selection, filtering and export -/

/-- `passes_seed_filter` from the source: pass everything when no seed order
or no selected seeds, otherwise require a non-empty intersection between
the selected seeds and the item's sources. -/
def passes_seed_filter (seed_order selected_seeds : List String) (it : Item) : Bool :=
  if seed_order.isEmpty || selected_seeds.isEmpty then true
  else selected_seeds.any (fun s => decide (s ∈ it.sources))

/-- `filtered_items = [it for it in items if passes_seed_filter(it)]`. -/
def filtered_items (items : List Item) (seed_order selected_seeds : List String) :
    List Item :=
  items.filter (passes_seed_filter seed_order selected_seeds)

/-- `selected = [it for it in items if it["id"] in selected_ids and it in filtered_items]`. -/
def selectedItems (items : List Item) (selected_ids : Finset Nat)
    (seed_order selected_seeds : List String) : List Item :=
  items.filter (fun it =>
    decide (it.id ∈ selected_ids) &&
      (filtered_items items seed_order selected_seeds).contains it)

/-- `preview = "\n\n".join(it["citation"] for it in selected)`. -/
def preview (items : List Item) (selected_ids : Finset Nat)
    (seed_order selected_seeds : List String) : String :=
  String.intercalate "\n\n"
    ((selectedItems items selected_ids seed_order selected_seeds).map
      (fun it => it.citation))

/-- The concatenation of the per-seed reference lists, each truncated to
`limit` entries, in `refs_by_seed` iteration order: the order in which the
merge loop visits references. -/
def truncFlat (limit : Nat) (rbs : List (String × List RefEntry)) : List RefEntry :=
  rbs.foldr (fun p acc => p.2.take limit ++ acc) []

/-- The invariant of the merge state: the keys of `unique_raw_by_doi` are
pairwise distinct, and every key has non-empty provenance. -/
def AggInv (st : AggState) : Prop :=
  (st.uniqueRaw.map Prod.fst).Nodup ∧
    ∀ d ∈ st.uniqueRaw.map Prod.fst, (st.seedsFor d).Nonempty

/-! ### Spec-side label components (worded after the specification) -/

/-- The non-empty family names of the author list. -/
def specFamilies (authors : List Author) : List String :=
  authors.filterMap (fun a => if a.family = "" then none else some a.family)

/-- Author component of the label, as the spec words it: `Unknown` when no
family names are present, the single family name for one author, `A & B`
for exactly two, `A et al.` for three or more. -/
def specAuthorsLabel (authors : List Author) : String :=
  match specFamilies authors with
  | [] => "Unknown"
  | [f] => f
  | [f, g] => f ++ " & " ++ g
  | f :: _ :: _ :: _ => f ++ " et al."

/-- Year component: the stringified year when present and nonzero
(Python truthiness), otherwise the literal `n.d.`. -/
def specYearLabel : Option Int → String
  | none => "n.d."
  | some y => if y = 0 then "n.d." else toString y

/-- Title source: the first non-empty of metadata title, raw-reference
free-text fallback, identifier. -/
def specTitleSource (title unstructured : Option String) (doi : String) : String :=
  pyOrS (optStr title) (pyOrS (optStr unstructured) doi)

/-- Title component: the source stripped of surrounding whitespace; when the
stripped form exceeds `MAX_TITLE_LENGTH` characters it is cut at that
boundary, trailing whitespace is trimmed and a single ellipsis character is
appended. -/
def specTruncate (s : String) : String :=
  let t := stripL s.data
  if MAX_TITLE_LENGTH < t.length then ⟨rstripL (t.take MAX_TITLE_LENGTH) ++ ['…']⟩
  else ⟨t⟩

/-- The title component as claim C4 literally words it (no initial strip:
the selected source is truncated only when it exceeds the threshold). -/
def claimTitleComponent (title unstructured : Option String) (doi : String) : String :=
  let t := match title with
    | some t => t
    | none => match unstructured with
      | some u => u
      | none => doi
  if MAX_TITLE_LENGTH < t.data.length then ⟨rstripL (t.data.take MAX_TITLE_LENGTH) ++ ['…']⟩
  else t

/-! ### Concrete inputs used by counterexamples and witnesses -/

/-- Ninety `a`s: a title of exactly the display threshold length. -/
def aNinety : String := ⟨List.replicate MAX_TITLE_LENGTH 'a'⟩

/-- A title one character over the threshold, whose 91st character is a
space: the code strips it below the threshold, the claim truncates it. -/
def cexMetaPad : Meta := ⟨[], none, some ⟨aNinety.data ++ [' ']⟩⟩

/-- A metadata record whose year is the integer `0` (present, but falsy). -/
def cexMetaYearZero : Meta := ⟨[], some 0, some "T"⟩

/-- A metadata record with a present-but-empty title, alongside a raw
reference carrying a free-text fallback. -/
def cexMetaEmptyTitle : Meta := ⟨[], none, some ""⟩

/-- The spec's label-formatting example title: `"A Very Long Title "` plus a
hundred `x`s. -/
def longTitle : String := ⟨"A Very Long Title ".data ++ List.replicate 100 'x'⟩

/-- Metadata for the spec's label-formatting example: one author with
family name `Smith`, year 2020, the long title. -/
def exMetaSmith : Meta := ⟨[⟨"", "Smith"⟩], some 2020, some longTitle⟩

/-- Reference entries for the aggregation examples. -/
def refEntry (u : Option String) (d : String) : RefEntry := ⟨⟨u⟩, d⟩

/-- Claim C2's example: seeds `S1 → {A, B}`, `S2 → {B, C}`, with
distinguishable raw forms for the two citations of `B`. -/
def exC2 : List (String × List RefEntry) :=
  [("S1", [refEntry (some "rawA") "A", refEntry (some "rawB-from-S1") "B"]),
   ("S2", [refEntry (some "rawB-from-S2") "B", refEntry (some "rawC") "C"])]

/-- Stage-1 `results` for claim C1, in the completion order `s1, s2`: both
seeds cite `10.1/x` with different raw forms. -/
def c1resA : List (String × Except String (List RefEntry)) :=
  [("s1", Except.ok [refEntry (some "r1") "10.1/x"]),
   ("s2", Except.ok [refEntry (some "r2") "10.1/x"])]

/-- The same fixed per-seed results as `c1resA`, in the completion order
`s2, s1`. -/
def c1resB : List (String × Except String (List RefEntry)) :=
  [("s2", Except.ok [refEntry (some "r2") "10.1/x"]),
   ("s1", Except.ok [refEntry (some "r1") "10.1/x"])]

/-- Claim C5's example seed with reference list `[A, B]` (as `[X, Y]`). -/
def exC5 : List (String × List RefEntry) :=
  [("s", [refEntry none "X", refEntry none "Y"])]

/-- Two seeds of two references each, to separate a per-seed limit from a
global one. -/
def exC5two : List (String × List RefEntry) :=
  [("s1", [refEntry none "X", refEntry none "Y"]),
   ("s2", [refEntry none "Z", refEntry none "W"])]

/-- Claim C7's example: three seeds, the second failing with a simulated
network error. -/
def exC7 : List (String × Except String (List RefEntry)) :=
  [("s1", Except.ok [refEntry none "X"]),
   ("s2", Except.error "boom"),
   ("s3", Except.ok [refEntry none "Z"])]

/-- A metadata oracle that always succeeds with a fixed record. -/
def oracleMeta : String → Option Meta := fun _ => some ⟨[], none, some "T"⟩

/-- A metadata oracle that fails (raises) for identifier `Y` only. -/
def oracleMetaFailY : String → Option Meta :=
  fun d => if d = "Y" then none else some ⟨[], none, some "T"⟩

/-- A citation oracle that always succeeds with a fixed citation text. -/
def oracleCit : String → String → Option String := fun _ _ => some "CITE"

/-- The raw-reference table used by the enrichment witnesses. -/
def exUniqueRaw : List (String × RegRef) := [("X", ⟨none⟩), ("Y", ⟨none⟩)]

/-- The provenance table used by the enrichment witnesses. -/
def exSeedsFor : String → Finset String := fun _ => {"s"}

/-! ### Spec-side formulations (used only on the right-hand side of
refinement theorems, worded after the specification) -/

/-- Deduplication keeping the first occurrence of each element, as the spec
describes it ("duplicates keep first-seen order"). -/
def dedupFirst : List String → List String
  | [] => []
  | x :: xs => x :: dedupFirst (xs.filter (fun y => y ≠ x))
termination_by l => l.length
decreasing_by
  exact Nat.lt_succ_of_le (List.length_filter_le _ _)

theorem mem_of_mem_dedupFirst {a : String} :
    ∀ {l : List String}, a ∈ dedupFirst l → a ∈ l := by
  intro l
  induction l using dedupFirst.induct with
  | case1 => intro h; simp [dedupFirst] at h
  | case2 x xs ih =>
    intro h
    rw [dedupFirst] at h
    rcases List.mem_cons.mp h with h | h
    · exact h ▸ List.mem_cons_self _ _
    · exact List.mem_cons_of_mem _ (List.mem_of_mem_filter (ih h))

theorem nodup_dedupFirst : ∀ (l : List String), (dedupFirst l).Nodup := by
  intro l
  induction l using dedupFirst.induct with
  | case1 => simp [dedupFirst]
  | case2 x xs ih =>
    rw [dedupFirst]
    refine List.nodup_cons.mpr ⟨fun hmem => ?_, ih⟩
    have := List.of_mem_filter (mem_of_mem_dedupFirst hmem)
    simp at this

theorem parseLoop_eq_dedupFirst :
    ∀ (ps : List String) (seen : List String),
      parseLoop seen ps =
        dedupFirst ((ps.map extract_doi).filter
          (fun d => d ≠ "" && !(seen.contains d))) := by
  intro ps
  induction ps with
  | nil => intro seen; simp [parseLoop, dedupFirst]
  | cons p ps ih =>
    intro seen
    by_cases hg : (extract_doi p ≠ "" && !(seen.contains (extract_doi p))) = true
    · rw [parseLoop]
      simp only [hg, if_pos]
      rw [List.map_cons, List.filter_cons, if_pos hg, dedupFirst, ih (extract_doi p :: seen)]
      congr 1
      rw [List.filter_filter]
      refine congrArg dedupFirst (List.filter_congr ?_)
      intro d _
      by_cases h1 : d = extract_doi p <;>
        by_cases h2 : d = "" <;>
        by_cases h3 : seen.contains d <;>
          simp [h1, h2, h3, List.contains_cons]
    · rw [parseLoop]
      rw [if_neg hg]
      rw [List.map_cons, List.filter_cons, if_neg hg, ih seen]

theorem stripL_eq_nil_of_all_space {l : List Char} (h : l.all isPySpace = true) :
    stripL l = [] := by
  have h1 : lstripL l = [] := by
    rw [lstripL, List.dropWhile_eq_nil_iff]
    exact fun x hx => List.all_eq_true.mp h x hx
  simp [stripL, h1, rstripL]

/-- C3: `parse_seed_inputs` returns the ordered first-seen deduplication of
the nonempty extracted identifiers of the tokens obtained by splitting the
stripped input on runs of newline/comma/semicolon/tab/space (each token
containing `doi.org` replaced by its URL path with leading slashes
stripped, via `extract_doi`); the result is duplicate-free; whitespace-only
input yields `[]`; and the three examples of the claim hold. -/
theorem C3_normalizer_contract :
    (∀ raw : String, parse_seed_inputs raw =
      dedupFirst (((seedTokens raw).map extract_doi).filter (fun d => d ≠ ""))) ∧
    (∀ raw : String, (parse_seed_inputs raw).Nodup) ∧
    (∀ raw : String, raw.data.all isPySpace = true → parse_seed_inputs raw = []) ∧
    parse_seed_inputs "10.1/a, 10.1/a\n10.1/b" = ["10.1/a", "10.1/b"] ∧
    parse_seed_inputs "https://doi.org/10.1/a" = ["10.1/a"] ∧
    parse_seed_inputs "   " = [] := by
  have key : ∀ raw : String, parse_seed_inputs raw =
      dedupFirst (((seedTokens raw).map extract_doi).filter (fun d => d ≠ "")) := by
    intro raw
    by_cases hraw : raw = ""
    · subst hraw
      have htok : seedTokens "" = [""] := rfl
      rw [parse_seed_inputs, if_pos rfl, htok]
      simp [dedupFirst, extract_doi, pyStrip, stripL, lstripL, rstripL]
    · rw [parse_seed_inputs, if_neg hraw, parseLoop_eq_dedupFirst]
      refine congrArg dedupFirst (List.filter_congr ?_)
      intro d _
      simp [List.contains]
  refine ⟨key, fun raw => ?_, fun raw h => ?_, by decide, by decide, by decide⟩
  · rw [key raw]; exact nodup_dedupFirst _
  · rw [parse_seed_inputs]
    by_cases hraw : raw = ""
    · rw [if_pos hraw]
    · rw [if_neg hraw]
      have htok : seedTokens raw = [""] := by
        rw [seedTokens, stripL_eq_nil_of_all_space h]
        rfl
      rw [htok]
      rfl

/-- Closed instance of `C3_normalizer_contract`: whitespace-only input (a
hypothesis of the third conjunct) yields the empty seed list, and a
concrete parse is duplicate-free. -/
theorem C3_normalizer_contract_witness :
    parse_seed_inputs " \t " = [] ∧ (parse_seed_inputs "10.1/a, 10.1/a\n10.1/b").Nodup :=
  ⟨C3_normalizer_contract.2.2.1 " \t " (by decide),
   C3_normalizer_contract.2.1 "10.1/a, 10.1/a\n10.1/b"⟩

/-! ### Properties of `strip` and `short` -/

theorem lstripL_def (l : List Char) : lstripL l = List.dropWhile isPySpace l := rfl

theorem rstripL_def (l : List Char) : rstripL l = List.rdropWhile isPySpace l := rfl

theorem dropWhile_cons_head_not {α : Type} {p : α → Bool} {l : List α} {c : α}
    {cs : List α} (h : l.dropWhile p = c :: cs) : p c = false := by
  have hh := List.head?_dropWhile_not p l
  rw [h] at hh
  simpa using hh

theorem stripL_head_not {l : List Char} {c : Char} {cs : List Char}
    (h : stripL l = c :: cs) : isPySpace c = false := by
  have hpre : stripL l <+: lstripL l := by
    rw [stripL, rstripL_def]
    exact List.rdropWhile_prefix _ _
  rw [h] at hpre
  obtain ⟨u, hu⟩ := hpre
  exact dropWhile_cons_head_not (l := l) (by rw [← lstripL_def, ← hu]; rfl)

theorem lstripL_stripL (l : List Char) : lstripL (stripL l) = stripL l := by
  cases h : stripL l with
  | nil => rfl
  | cons c cs =>
    have hc := stripL_head_not h
    simp [lstripL_def, List.dropWhile_cons, hc]

theorem rstripL_stripL (l : List Char) : rstripL (stripL l) = stripL l := by
  rw [stripL, rstripL_def, rstripL_def]
  exact List.rdropWhile_idempotent _ _

theorem stripL_stripL (l : List Char) : stripL (stripL l) = stripL l := by
  rw [show stripL (stripL l) = rstripL (lstripL (stripL l)) from rfl,
    lstripL_stripL, rstripL_stripL]

theorem isPySpace_ellipsis : isPySpace '…' = false := by decide

theorem stripL_shortL (n : Nat) (l : List Char) :
    stripL (shortL n l) = shortL n l := by
  rw [shortL]
  by_cases h : (stripL l).length ≤ n
  · rw [if_pos h]
    exact stripL_stripL l
  · rw [if_neg h]
    have hl : lstripL (rstripL ((stripL l).take n) ++ ['…']) =
        rstripL ((stripL l).take n) ++ ['…'] := by
      cases hr : rstripL ((stripL l).take n) with
      | nil => simp [lstripL_def, List.dropWhile_cons, isPySpace_ellipsis]
      | cons c cs =>
        have hpre1 : rstripL ((stripL l).take n) <+: (stripL l).take n := by
          rw [rstripL_def]; exact List.rdropWhile_prefix _ _
        have hpre2 : (stripL l).take n <+: stripL l := List.take_prefix _ _
        have hpre := (hr ▸ hpre1).trans hpre2
        obtain ⟨u, hu⟩ := hpre
        have hc : isPySpace c = false := stripL_head_not (l := l) (by rw [← hu]; rfl)
        simp [lstripL_def, List.dropWhile_cons, hc]
    have hrs : rstripL (rstripL ((stripL l).take n) ++ ['…']) =
        rstripL ((stripL l).take n) ++ ['…'] := by
      rw [rstripL_def]
      exact List.rdropWhile_concat_neg _ _ _ (by simp [isPySpace_ellipsis])
    rw [stripL, hl, hrs]

theorem shortL_idem (n : Nat) (l : List Char) :
    shortL n (shortL n l) = shortL n l := by
  by_cases h : (stripL l).length ≤ n
  · have h1 : shortL n l = stripL l := by rw [shortL, if_pos h]
    rw [h1, shortL, stripL_stripL, if_pos h]
  · have h1 : shortL n l = rstripL ((stripL l).take n) ++ ['…'] := by
      rw [shortL, if_neg h]
    have hs := stripL_shortL n l
    rw [h1] at hs
    have htlen : ((stripL l).take n).length = n := by
      rw [List.length_take]
      exact Nat.min_eq_left (Nat.le_of_lt (Nat.lt_of_not_le h))
    by_cases h2 : (rstripL ((stripL l).take n) ++ ['…']).length ≤ n
    · rw [h1, shortL, hs, if_pos h2]
    · rw [h1, shortL, hs, if_neg h2]
      have hlen : (rstripL ((stripL l).take n)).length = n := by
        have hle : (rstripL ((stripL l).take n)).length ≤ n := by
          have h3 := (List.rdropWhile_prefix isPySpace ((stripL l).take n)).length_le
          rw [← rstripL_def] at h3
          omega
        have hgt : n < (rstripL ((stripL l).take n)).length + 1 := by
          have := Nat.lt_of_not_le h2
          simpa using this
        omega
      have heq : rstripL ((stripL l).take n) = (stripL l).take n := by
        have hpre : rstripL ((stripL l).take n) <+: (stripL l).take n := by
          rw [rstripL_def]; exact List.rdropWhile_prefix _ _
        exact hpre.eq_of_length (by rw [hlen, htlen])
      have htake : (rstripL ((stripL l).take n) ++ ['…']).take n =
          rstripL ((stripL l).take n) := List.take_left' hlen
      rw [htake]
      have hidem : rstripL (rstripL ((stripL l).take n)) = rstripL ((stripL l).take n) := by
        rw [rstripL_def, rstripL_def]
        exact List.rdropWhile_idempotent _ _
      rw [hidem]

/-- C10: the truncation helper `short` is idempotent — applying it to an
already-shortened string returns it unchanged. -/
theorem C10_short_idempotent : ∀ s : String, short (short s) = short s := by
  intro s
  exact congrArg String.mk (shortL_idem MAX_TITLE_LENGTH s.data)

/-! ### The merge: `unique_raw_by_doi` and `seeds_for_doi` -/

theorem lookup_append {β : Type} (l1 l2 : List (String × β)) (d : String) :
    List.lookup d (l1 ++ l2) = (List.lookup d l1).or (List.lookup d l2) := by
  induction l1 with
  | nil => simp [List.lookup]
  | cons kv t ih =>
    obtain ⟨k, v⟩ := kv
    cases hdk : d == k <;> simp [List.lookup, hdk, ih]

theorem lookup_eq_none_iff {β : Type} (l : List (String × β)) (d : String) :
    List.lookup d l = none ↔ d ∉ l.map Prod.fst := by
  induction l with
  | nil => simp [List.lookup]
  | cons kv t ih =>
    obtain ⟨k, v⟩ := kv
    cases hdk : d == k
    · simp only [List.lookup, hdk, List.map_cons, List.mem_cons, ih]
      have : ¬d = k := by simpa using hdk
      tauto
    · have : d = k := by simpa using hdk
      simp [List.lookup, hdk, this]

theorem mergeStep_seedsFor (seed : String) (st : AggState) (r : RefEntry)
    (d : String) (hd : d ≠ "") :
    (mergeStep seed st r).seedsFor d =
      if d = r.doi then insert seed (st.seedsFor d) else st.seedsFor d := by
  rw [mergeStep]
  by_cases h0 : r.doi = ""
  · rw [if_pos h0, if_neg (fun h => hd (h.trans h0))]
  · rw [if_neg h0]

theorem mergeStepFold_seedsFor (seed : String) (rl : List RefEntry) :
    ∀ (st : AggState) (d : String), d ≠ "" →
      ((rl.foldl (mergeStep seed) st).seedsFor d) =
        if rl.any (fun r => r.doi == d) then insert seed (st.seedsFor d)
        else st.seedsFor d := by
  induction rl with
  | nil => intro st d _; simp
  | cons r rl ih =>
    intro st d hd
    rw [List.foldl_cons, ih _ d hd, List.any_cons, mergeStep_seedsFor seed st r d hd]
    by_cases h1 : r.doi = d
    · have hb : (r.doi == d) = true := beq_iff_eq.mpr h1
      rw [if_pos h1.symm]
      by_cases h2 : rl.any (fun r => r.doi == d) <;> simp [h2, hb]
    · have hb : (r.doi == d) = false := by simpa using h1
      have hne : ¬(d = r.doi) := fun hh => h1 hh.symm
      rw [if_neg hne]
      simp [hb]

theorem mergeStep_lookup (seed : String) (st : AggState) (r : RefEntry)
    (d : String) (hd : d ≠ "") :
    List.lookup d (mergeStep seed st r).uniqueRaw =
      (List.lookup d st.uniqueRaw).or
        (if r.doi = d then some r.raw else none) := by
  rw [mergeStep]
  by_cases h0 : r.doi = ""
  · have hne : ¬(r.doi = d) := fun h => hd (h.symm.trans h0)
    rw [if_pos h0, if_neg hne, Option.or_none]
  · rw [if_neg h0]
    by_cases h1 : r.doi = d
    · subst h1
      rw [if_pos rfl]
      cases hm : List.lookup r.doi st.uniqueRaw with
      | some v => simp [hm]
      | none =>
        simp only [hm]
        rw [lookup_append, hm]
        simp [List.lookup]
    · have hlk : List.lookup d [(r.doi, r.raw)] = none := by
        have hbb : (d == r.doi) = false := by
          simpa using fun hh => h1 hh.symm
        simp [List.lookup, hbb]
      rw [if_neg h1, Option.or_none]
      cases hm : List.lookup r.doi st.uniqueRaw with
      | some v => simp only [hm]
      | none =>
        simp only [hm]
        rw [lookup_append, hlk, Option.or_none]

theorem mergeStepFold_lookup (seed : String) (rl : List RefEntry) :
    ∀ (st : AggState) (d : String), d ≠ "" →
      List.lookup d (rl.foldl (mergeStep seed) st).uniqueRaw =
        (List.lookup d st.uniqueRaw).or
          ((rl.find? (fun r => r.doi == d)).map (fun r => r.raw)) := by
  induction rl with
  | nil => intro st d _; simp [Option.or_none]
  | cons r rl ih =>
    intro st d hd
    rw [List.foldl_cons, ih _ d hd, mergeStep_lookup seed st r d hd]
    by_cases h1 : r.doi = d
    · have hb : (r.doi == d) = true := beq_iff_eq.mpr h1
      have hfind : List.find? (fun x => x.doi == d) (r :: rl) = some r := by
        rw [List.find?_cons]
        simp [hb]
      rw [hfind, if_pos h1, Option.or_assoc]
      simp
    · have hb : (r.doi == d) = false := by simpa using h1
      have hfind : List.find? (fun x => x.doi == d) (r :: rl) =
          List.find? (fun x => x.doi == d) rl := by
        rw [List.find?_cons]
        simp [hb]
      rw [hfind, if_neg h1, Option.or_none]

theorem aggFold_seedsFor (limit : Nat) (rbs : List (String × List RefEntry)) :
    ∀ (st : AggState) (d : String), d ≠ "" →
      ((rbs.foldl (mergeSeed limit) st).seedsFor d) =
        st.seedsFor d ∪
          ((rbs.filter (fun p => (p.2.take limit).any (fun r => r.doi == d))).map
            Prod.fst).toFinset := by
  induction rbs with
  | nil => intro st d _; simp
  | cons p rbs ih =>
    intro st d hd
    rw [List.foldl_cons, ih _ d hd, mergeSeed,
      mergeStepFold_seedsFor p.1 (p.2.take limit) st d hd, List.filter_cons]
    by_cases h1 : (p.2.take limit).any (fun r => r.doi == d)
    · rw [if_pos h1, if_pos h1, List.map_cons, List.toFinset_cons,
        Finset.union_insert, Finset.insert_union]
    · rw [if_neg h1, if_neg h1]

theorem aggFold_lookup (limit : Nat) (rbs : List (String × List RefEntry)) :
    ∀ (st : AggState) (d : String), d ≠ "" →
      List.lookup d (rbs.foldl (mergeSeed limit) st).uniqueRaw =
        (List.lookup d st.uniqueRaw).or
          (((truncFlat limit rbs).find? (fun r => r.doi == d)).map
            (fun r => r.raw)) := by
  induction rbs with
  | nil => intro st d _; simp [truncFlat, Option.or_none]
  | cons p rbs ih =>
    intro st d hd
    rw [List.foldl_cons, ih _ d hd, mergeSeed,
      mergeStepFold_lookup p.1 (p.2.take limit) st d hd]
    have hflat : truncFlat limit (p :: rbs) = p.2.take limit ++ truncFlat limit rbs := rfl
    rw [hflat, List.find?_append, Option.map_or', Option.or_assoc]

theorem aggregate_seedsFor (limit : Nat) (rbs : List (String × List RefEntry))
    (d : String) (hd : d ≠ "") :
    (aggregate limit rbs).seedsFor d =
      ((rbs.filter (fun p => (p.2.take limit).any (fun r => r.doi == d))).map
        Prod.fst).toFinset := by
  rw [aggregate, aggFold_seedsFor limit rbs _ d hd]
  exact Finset.empty_union _

theorem aggregate_lookup (limit : Nat) (rbs : List (String × List RefEntry))
    (d : String) (hd : d ≠ "") :
    List.lookup d (aggregate limit rbs).uniqueRaw =
      ((truncFlat limit rbs).find? (fun r => r.doi == d)).map (fun r => r.raw) := by
  rw [aggregate, aggFold_lookup limit rbs _ d hd]
  rfl

theorem mem_truncFlat {r : RefEntry} {limit : Nat} :
    ∀ {rbs : List (String × List RefEntry)},
      r ∈ truncFlat limit rbs ↔ ∃ p ∈ rbs, r ∈ p.2.take limit := by
  intro rbs
  induction rbs with
  | nil => simp [truncFlat]
  | cons p rbs ih =>
    have hflat : truncFlat limit (p :: rbs) = p.2.take limit ++ truncFlat limit rbs := rfl
    rw [hflat]
    simp [List.mem_append, ih]

/-- C2: for a fixed `refs_by_seed` (per-seed truncated reference lists, in
merge-iteration order), aggregation maps each surviving identifier to the
set of exactly the seeds whose truncated list contains it, and retains as
representative raw form the first reference seen for it in merge order. -/
theorem C2_provenance_and_first_raw (limit : Nat)
    (rbs : List (String × List RefEntry)) (d : String) (hd : d ≠ "") :
    (aggregate limit rbs).seedsFor d =
      ((rbs.filter (fun p => (p.2.take limit).any (fun r => r.doi == d))).map
        Prod.fst).toFinset ∧
    List.lookup d (aggregate limit rbs).uniqueRaw =
      ((truncFlat limit rbs).find? (fun r => r.doi == d)).map (fun r => r.raw) :=
  ⟨aggregate_seedsFor limit rbs d hd, aggregate_lookup limit rbs d hd⟩

/-- Closed instance of `C2_provenance_and_first_raw` at the claim's example
`S1 → {A, B}`, `S2 → {B, C}`: `Provenance(A) = {S1}`,
`Provenance(B) = {S1, S2}`, `Provenance(C) = {S2}`, and the raw form kept
for `B` is the one from `S1`, the first seed merged. -/
theorem C2_provenance_and_first_raw_witness :
    (aggregate 100 exC2).seedsFor "A" = {"S1"} ∧
    (aggregate 100 exC2).seedsFor "B" = {"S1", "S2"} ∧
    (aggregate 100 exC2).seedsFor "C" = {"S2"} ∧
    List.lookup "B" (aggregate 100 exC2).uniqueRaw = some ⟨some "rawB-from-S1"⟩ := by
  refine ⟨?_, ?_, ?_, ?_⟩
  · exact (C2_provenance_and_first_raw 100 exC2 "A" (by decide)).1.trans (by decide)
  · exact (C2_provenance_and_first_raw 100 exC2 "B" (by decide)).1.trans (by decide)
  · exact (C2_provenance_and_first_raw 100 exC2 "C" (by decide)).1.trans (by decide)
  · exact (C2_provenance_and_first_raw 100 exC2 "B" (by decide)).2.trans (by decide)

/-- C5: an identifier survives the merge exactly when some seed's reference
list contains it within the first `perSeedLimit` entries — the truncation
happens per seed, before merging; with `perSeedLimit = 1` and a seed whose
list is `[X, Y]` only `X` is merged, and with two such seeds each seed
still contributes its own first entry (the limit is not global). -/
theorem C5_per_seed_truncation :
    (∀ (limit : Nat) (rbs : List (String × List RefEntry)) (d : String), d ≠ "" →
      (List.lookup d (aggregate limit rbs).uniqueRaw ≠ none ↔
        ∃ p ∈ rbs, (p.2.take limit).any (fun r => r.doi == d) = true)) ∧
    (aggregate 1 exC5).uniqueRaw.map Prod.fst = ["X"] ∧
    (aggregate 1 exC5two).uniqueRaw.map Prod.fst = ["X", "Z"] := by
  refine ⟨?_, by decide, by decide⟩
  intro limit rbs d hd
  rw [aggregate_lookup limit rbs d hd]
  constructor
  · intro h
    have h1 : (truncFlat limit rbs).find? (fun r => r.doi == d) ≠ none := by
      intro hn
      exact h (by rw [hn]; rfl)
    obtain ⟨r, hr, hp⟩ :=
      List.find?_isSome.mp (Option.isSome_iff_ne_none.mpr h1)
    obtain ⟨p, hpmem, hrmem⟩ := mem_truncFlat.mp hr
    exact ⟨p, hpmem, List.any_eq_true.mpr ⟨r, hrmem, hp⟩⟩
  · rintro ⟨p, hp, hany⟩
    obtain ⟨r, hr, hdoi⟩ := List.any_eq_true.mp hany
    have hmem : r ∈ truncFlat limit rbs := mem_truncFlat.mpr ⟨p, hp, hr⟩
    have hsome : ((truncFlat limit rbs).find? (fun r => r.doi == d)).isSome :=
      List.find?_isSome.mpr ⟨r, hmem, hdoi⟩
    intro hn
    rw [Option.map_eq_none'] at hn
    rw [hn] at hsome
    exact Bool.noConfusion hsome

/-- Closed instance of `C5_per_seed_truncation` on the claim's example: with
`perSeedLimit = 1` and the seed list `[X, Y]`, `X` is merged and `Y` is
not. -/
theorem C5_per_seed_truncation_witness :
    List.lookup "X" (aggregate 1 exC5).uniqueRaw ≠ none ∧
    List.lookup "Y" (aggregate 1 exC5).uniqueRaw = none := by
  constructor
  · exact (C5_per_seed_truncation.1 1 exC5 "X" (by decide)).mpr (by decide)
  · by_contra hne
    exact absurd ((C5_per_seed_truncation.1 1 exC5 "Y" (by decide)).mp hne)
      (by decide)

/-- C1 fails on the code: the same fixed per-seed results, arriving in the
two possible completion orders, leave different representative raw forms
for `10.1/x` in `unique_raw_by_doi`, because the merge iterates
`refs_by_seed` in completion order. The provenance map is nevertheless the
same, so only the representative differs. -/
theorem C1_merge_depends_on_completion_order :
    c1resB.Perm c1resA ∧
    List.lookup "10.1/x" (aggregate 100 (stage1RefsBySeed c1resA)).uniqueRaw =
      some ⟨some "r1"⟩ ∧
    List.lookup "10.1/x" (aggregate 100 (stage1RefsBySeed c1resB)).uniqueRaw =
      some ⟨some "r2"⟩ ∧
    (⟨some "r1"⟩ : RegRef) ≠ ⟨some "r2"⟩ ∧
    (aggregate 100 (stage1RefsBySeed c1resA)).seedsFor "10.1/x" =
      (aggregate 100 (stage1RefsBySeed c1resB)).seedsFor "10.1/x" := by
  refine ⟨?_, by decide, by decide, by decide, by decide⟩
  exact List.Perm.swap _ _ _

/-- C7: failed stage-1 seeds are each recorded in the error list, do not
appear in `refs_by_seed`, and do not prevent the surviving seeds from being
merged: every successful seed's truncated references reach the aggregate
provenance. -/
theorem C7_partial_failure_tolerance :
    (∀ (results : List (String × Except String (List RefEntry))) (s e),
      (s, Except.error e) ∈ results → (s, e) ∈ stage1Errors results) ∧
    (∀ (results : List (String × Except String (List RefEntry))) (s l),
      (s, Except.ok l) ∈ results → (s, l) ∈ stage1RefsBySeed results) ∧
    (∀ (results : List (String × Except String (List RefEntry))) (s e l),
      (results.map Prod.fst).Nodup → (s, Except.error e) ∈ results →
        (s, l) ∉ stage1RefsBySeed results) ∧
    (∀ (results : List (String × Except String (List RefEntry)))
        (limit : Nat) (s : String) (l : List RefEntry) (d : String),
      (s, Except.ok l) ∈ results → d ≠ "" →
      (l.take limit).any (fun r => r.doi == d) = true →
      s ∈ (aggregate limit (stage1RefsBySeed results)).seedsFor d) := by
  refine ⟨?_, ?_, ?_, ?_⟩
  · intro results s e h
    exact List.mem_filterMap.mpr ⟨(s, Except.error e), h, rfl⟩
  · intro results s l h
    exact List.mem_filterMap.mpr ⟨(s, Except.ok l), h, rfl⟩
  · intro results s e l hnd herr hok
    obtain ⟨x, hx, hfx⟩ := List.mem_filterMap.mp hok
    obtain ⟨s', exc⟩ := x
    have hx' : s' = s ∧ exc = Except.ok l := by
      cases exc with
      | ok l' =>
        simp only [stage1RefsBySeed] at hfx
        cases hfx
        exact ⟨rfl, rfl⟩
      | error e' => simp at hfx
    obtain ⟨rfl, rfl⟩ := hx'
    have := List.inj_on_of_nodup_map hnd hx herr rfl
    simp at this
  · intro results limit s l d hmem hd hany
    have hin : (s, l) ∈ stage1RefsBySeed results :=
      List.mem_filterMap.mpr ⟨(s, Except.ok l), hmem, rfl⟩
    rw [aggregate_seedsFor limit _ d hd]
    rw [List.mem_toFinset]
    exact List.mem_map.mpr ⟨(s, l), List.mem_filter.mpr ⟨hin, hany⟩, rfl⟩

/-- Closed instance of `C7_partial_failure_tolerance` on the claim's
example: of three seeds the second fails; its error is recorded, and the
other two seeds' references are still merged with correct provenance. -/
theorem C7_partial_failure_tolerance_witness :
    stage1Errors exC7 = [("s2", "boom")] ∧
    ("s1", [refEntry none "X"]) ∈ stage1RefsBySeed exC7 ∧
    "s1" ∈ (aggregate 100 (stage1RefsBySeed exC7)).seedsFor "X" ∧
    "s3" ∈ (aggregate 100 (stage1RefsBySeed exC7)).seedsFor "Z" := by
  refine ⟨by decide, ?_, ?_, ?_⟩
  · exact C7_partial_failure_tolerance.2.1 exC7 "s1" [refEntry none "X"]
      (by simp [exC7])
  · exact C7_partial_failure_tolerance.2.2.2 exC7 100 "s1" [refEntry none "X"] "X"
      (by simp [exC7]) (by decide) (by decide)
  · exact C7_partial_failure_tolerance.2.2.2 exC7 100 "s3" [refEntry none "Z"] "Z"
      (by simp [exC7]) (by decide) (by decide)

/-! ### Invariants of the merge state and the enrichment stage -/

theorem foldl_preserve {α σ : Type} (f : σ → α → σ) (P : σ → Prop)
    (hf : ∀ s a, P s → P (f s a)) :
    ∀ (l : List α) (s : σ), P s → P (l.foldl f s) := by
  intro l
  induction l with
  | nil => intro s hs; exact hs
  | cons a l ih => intro s hs; exact ih _ (hf s a hs)

theorem mergeStep_inv (seed : String) (st : AggState) (r : RefEntry)
    (h : AggInv st) : AggInv (mergeStep seed st r) := by
  rw [mergeStep]
  by_cases h0 : r.doi = ""
  · rwa [if_pos h0]
  · rw [if_neg h0]
    cases hm : List.lookup r.doi st.uniqueRaw with
    | some v =>
      simp only [hm]
      refine ⟨h.1, fun d hdm => ?_⟩
      show (if d = r.doi then insert seed (st.seedsFor d) else st.seedsFor d).Nonempty
      by_cases hdr : d = r.doi
      · rw [if_pos hdr]; exact Finset.insert_nonempty _ _
      · rw [if_neg hdr]; exact h.2 d hdm
    | none =>
      simp only [hm]
      have hnotin : r.doi ∉ st.uniqueRaw.map Prod.fst := (lookup_eq_none_iff _ _).mp hm
      constructor
      · rw [List.map_append]
        refine List.Nodup.append h.1 (List.nodup_singleton _) ?_
        intro a ha hb
        rw [List.map_cons, List.map_nil, List.mem_singleton] at hb
        have hb' : a = r.doi := hb
        exact hnotin (by rwa [hb'] at ha)
      · intro d hdm
        show (if d = r.doi then insert seed (st.seedsFor d) else st.seedsFor d).Nonempty
        by_cases hdr : d = r.doi
        · rw [if_pos hdr]; exact Finset.insert_nonempty _ _
        · rw [if_neg hdr]
          rw [List.map_append] at hdm
          rcases List.mem_append.mp hdm with h' | h'
          · exact h.2 d h'
          · rw [List.map_cons, List.map_nil, List.mem_singleton] at h'
            exact absurd h' hdr

theorem aggregate_inv (limit : Nat) (rbs : List (String × List RefEntry)) :
    AggInv (aggregate limit rbs) := by
  rw [aggregate]
  refine foldl_preserve _ AggInv
    (fun s p hs => foldl_preserve _ AggInv
      (fun s' r hs' => mergeStep_inv p.1 s' r hs') _ s hs) rbs _ ⟨List.nodup_nil, ?_⟩
  intro d hd
  exact absurd hd (List.not_mem_nil d)

theorem fetch_item_doi_eq {metaOf : String → Option Meta}
    {citOf : String → String → Option String} {d : String} {raw : Option RegRef}
    {fmt : String} {c : ItemCore}
    (h : fetch_item_for_doi metaOf citOf d raw fmt = some c) : c.doi = d := by
  cases hm : metaOf d with
  | none => rw [fetch_item_for_doi, hm] at h; exact absurd h (by simp)
  | some m =>
    cases hc : citOf d fmt with
    | none =>
      rw [fetch_item_for_doi, hm] at h
      simp only [hc] at h
      exact Option.noConfusion h
    | some cit =>
      rw [fetch_item_for_doi, hm] at h
      simp only [hc, Option.some.injEq] at h
      rw [← h]

theorem collected_map_doi (metaOf : String → Option Meta)
    (citOf : String → String → Option String) (fmt : String)
    (uniqueRaw : List (String × RegRef)) :
    ∀ (completion : List String),
      ((completion.filterMap (fun d =>
          (fetch_item_for_doi metaOf citOf d (List.lookup d uniqueRaw) fmt).map
            (fun c => (d, c)))).map (fun q => q.2.doi)) =
        completion.filter (fun d =>
          (fetch_item_for_doi metaOf citOf d (List.lookup d uniqueRaw) fmt).isSome) := by
  intro completion
  induction completion with
  | nil => rfl
  | cons d cs ih =>
    rw [List.filterMap_cons, List.filter_cons]
    cases hf : fetch_item_for_doi metaOf citOf d (List.lookup d uniqueRaw) fmt with
    | none => simpa using ih
    | some c =>
      have hd : c.doi = d := fetch_item_doi_eq hf
      simp only [Option.map_some', Option.isSome_some, if_pos, List.map_cons]
      rw [ih, hd]

theorem buildItems_unfold (metaOf : String → Option Meta)
    (citOf : String → String → Option String) (fmt : String)
    (uniqueRaw : List (String × RegRef)) (seedsFor : String → Finset String)
    (completion : List String) :
    buildItems metaOf citOf fmt uniqueRaw seedsFor completion =
      ((completion.filterMap (fun d =>
          (fetch_item_for_doi metaOf citOf d (List.lookup d uniqueRaw) fmt).map
            (fun c => (d, c)))).enum.map (fun p =>
        { doi := p.2.2.doi, label := p.2.2.label, citation := p.2.2.citation,
          sources := seedsFor p.2.1, id := p.1 })) := rfl

theorem buildItems_map_doi (metaOf : String → Option Meta)
    (citOf : String → String → Option String) (fmt : String)
    (uniqueRaw : List (String × RegRef)) (seedsFor : String → Finset String)
    (completion : List String) :
    (buildItems metaOf citOf fmt uniqueRaw seedsFor completion).map
        (fun it => it.doi) =
      completion.filter (fun d =>
        (fetch_item_for_doi metaOf citOf d (List.lookup d uniqueRaw) fmt).isSome) := by
  rw [buildItems_unfold, List.map_map]
  rw [show ((fun it : Item => it.doi) ∘ (fun p : Nat × (String × ItemCore) =>
      ({ doi := p.2.2.doi, label := p.2.2.label, citation := p.2.2.citation,
         sources := seedsFor p.2.1, id := p.1 } : Item))) =
    ((fun q : String × ItemCore => q.2.doi) ∘ Prod.snd) from rfl]
  rw [← List.map_map, List.enum_map_snd]
  exact collected_map_doi metaOf citOf fmt uniqueRaw completion

theorem mem_buildItems {metaOf : String → Option Meta}
    {citOf : String → String → Option String} {fmt : String}
    {uniqueRaw : List (String × RegRef)} {seedsFor : String → Finset String}
    {completion : List String} {it : Item}
    (h : it ∈ buildItems metaOf citOf fmt uniqueRaw seedsFor completion) :
    ∃ d ∈ completion, ∃ c,
      fetch_item_for_doi metaOf citOf d (List.lookup d uniqueRaw) fmt = some c ∧
      it.doi = c.doi ∧ it.label = c.label ∧ it.citation = c.citation ∧
      it.sources = seedsFor d := by
  rw [buildItems_unfold] at h
  obtain ⟨p, hp, hg⟩ := List.mem_map.mp h
  have hp2 : p.2 ∈ completion.filterMap (fun d =>
      (fetch_item_for_doi metaOf citOf d (List.lookup d uniqueRaw) fmt).map
        (fun c => (d, c))) := by
    have hmm := List.mem_map_of_mem Prod.snd hp
    rwa [List.enum_map_snd] at hmm
  obtain ⟨d, hdmem, hfd⟩ := List.mem_filterMap.mp hp2
  cases hf : fetch_item_for_doi metaOf citOf d (List.lookup d uniqueRaw) fmt with
  | none => rw [hf] at hfd; simp at hfd
  | some c =>
    rw [hf] at hfd
    simp only [Option.map_some', Option.some.injEq] at hfd
    refine ⟨d, hdmem, c, hf, ?_, ?_, ?_, ?_⟩ <;> rw [← hg, ← hfd]

/-- C9: every item batch has pairwise distinct identifiers (one item per
surviving DOI) and non-empty provenance on every item, for any completion
order of the enrichment stage over the merged DOI set. -/
theorem C9_item_invariants (limit : Nat) (rbs : List (String × List RefEntry))
    (metaOf : String → Option Meta) (citOf : String → String → Option String)
    (fmt : String) (completion : List String)
    (hperm : completion.Perm ((aggregate limit rbs).uniqueRaw.map Prod.fst)) :
    ((buildItems metaOf citOf fmt (aggregate limit rbs).uniqueRaw
        (aggregate limit rbs).seedsFor completion).map (fun it => it.doi)).Nodup ∧
    ∀ it ∈ buildItems metaOf citOf fmt (aggregate limit rbs).uniqueRaw
        (aggregate limit rbs).seedsFor completion, it.sources.Nonempty := by
  have hinv := aggregate_inv limit rbs
  have hcompnd : completion.Nodup := hperm.nodup_iff.mpr hinv.1
  constructor
  · rw [buildItems_map_doi]
    exact hcompnd.filter _
  · intro it hit
    obtain ⟨d, hdmem, c, hf, _, _, _, hsrc⟩ := mem_buildItems hit
    rw [hsrc]
    exact hinv.2 d (hperm.mem_iff.mp hdmem)

/-- Closed instance of `C9_item_invariants`: the enrichment of the merged
`S1/S2` example, with completion order `B, C, A` (a permutation of the
merged key order `A, B, C`). -/
theorem C9_item_invariants_witness :
    ((buildItems oracleMeta oracleCit "BibTeX" (aggregate 100 exC2).uniqueRaw
        (aggregate 100 exC2).seedsFor ["B", "C", "A"]).map (fun it => it.doi)).Nodup ∧
    ∀ it ∈ buildItems oracleMeta oracleCit "BibTeX" (aggregate 100 exC2).uniqueRaw
        (aggregate 100 exC2).seedsFor ["B", "C", "A"], it.sources.Nonempty :=
  C9_item_invariants 100 exC2 oracleMeta oracleCit "BibTeX" ["B", "C", "A"]
    (by decide)

/-- C6: if either the metadata fetch or the citation fetch fails for an
identifier, that identifier is silently dropped from the item list (no
partial item, and `buildItems` surfaces no error value); every identifier
in the batch for which both fetches succeed still yields an item. -/
theorem C6_enrichment_failures_dropped (metaOf : String → Option Meta)
    (citOf : String → String → Option String) (fmt : String)
    (uniqueRaw : List (String × RegRef)) (seedsFor : String → Finset String)
    (completion : List String) (d : String) :
    ((metaOf d = none ∨ citOf d fmt = none) →
      d ∉ (buildItems metaOf citOf fmt uniqueRaw seedsFor completion).map
        (fun it => it.doi)) ∧
    (∀ m c, d ∈ completion → metaOf d = some m → citOf d fmt = some c →
      ∃ it ∈ buildItems metaOf citOf fmt uniqueRaw seedsFor completion,
        it.doi = d) := by
  constructor
  · intro hfail hmem
    rw [buildItems_map_doi] at hmem
    have hsome := List.of_mem_filter hmem
    have hnone : fetch_item_for_doi metaOf citOf d (List.lookup d uniqueRaw) fmt
        = none := by
      rcases hfail with h | h
      · rw [fetch_item_for_doi, h]
      · cases hm : metaOf d with
        | none => rw [fetch_item_for_doi, hm]
        | some m =>
          rw [fetch_item_for_doi, hm]
          simp only [h]
    rw [hnone] at hsome
    exact Bool.noConfusion hsome
  · intro m c hdc hm hc
    have hsome : (fetch_item_for_doi metaOf citOf d
        (List.lookup d uniqueRaw) fmt).isSome := by
      rw [fetch_item_for_doi, hm]
      simp only [hc, Option.isSome_some]
    have hmem : d ∈ (buildItems metaOf citOf fmt uniqueRaw seedsFor
        completion).map (fun it => it.doi) := by
      rw [buildItems_map_doi]
      exact List.mem_filter.mpr ⟨hdc, hsome⟩
    obtain ⟨it, hit, hd⟩ := List.mem_map.mp hmem
    exact ⟨it, hit, hd⟩

/-- Closed instance of `C6_enrichment_failures_dropped`: of the two DOIs
`X, Y`, the metadata fetch fails for `Y` only; `Y` is silently absent from
the items and `X` is still enriched. -/
theorem C6_enrichment_failures_dropped_witness :
    ("Y" ∉ (buildItems oracleMetaFailY oracleCit "RIS" exUniqueRaw exSeedsFor
        ["X", "Y"]).map (fun it => it.doi)) ∧
    ∃ it ∈ buildItems oracleMetaFailY oracleCit "RIS" exUniqueRaw exSeedsFor
        ["X", "Y"], it.doi = "X" := by
  constructor
  · exact (C6_enrichment_failures_dropped oracleMetaFailY oracleCit "RIS"
      exUniqueRaw exSeedsFor ["X", "Y"] "Y").1 (Or.inl (by decide))
  · exact (C6_enrichment_failures_dropped oracleMetaFailY oracleCit "RIS"
      exUniqueRaw exSeedsFor ["X", "Y"] "X").2 ⟨[], none, some "T"⟩ "CITE"
      (by decide) (by decide) (by decide)

/-! ### Export preview -/

/-- C8: the export preview joins, with one blank line between entries, the
citations of exactly those items whose id is in the selection and which
pass the current source filter, in item-list order; an empty selection
yields the empty preview. -/
theorem C8_export_preview (items : List Item)
    (seed_order selected_seeds : List String) (selected_ids : Finset Nat) :
    preview items selected_ids seed_order selected_seeds =
      String.intercalate "\n\n"
        ((items.filter (fun it => decide (it.id ∈ selected_ids) &&
            passes_seed_filter seed_order selected_seeds it)).map
          (fun it => it.citation)) ∧
    preview items ∅ seed_order selected_seeds = "" := by
  constructor
  · rw [preview, selectedItems]
    refine congrArg _ (congrArg _ (List.filter_congr ?_))
    intro it hit
    by_cases hpass : passes_seed_filter seed_order selected_seeds it = true
    · have hc : (filtered_items items seed_order selected_seeds).contains it = true :=
        List.elem_iff.mpr (List.mem_filter.mpr ⟨hit, hpass⟩)
      rw [hc, hpass]
    · have hpass' : passes_seed_filter seed_order selected_seeds it = false := by
        simpa using hpass
      have hc : (filtered_items items seed_order selected_seeds).contains it = false := by
        rw [← Bool.not_eq_true]
        intro hmem
        have := List.mem_filter.mp (List.elem_iff.mp hmem)
        rw [hpass'] at this
        exact Bool.noConfusion this.2
      rw [hc, hpass']
  · rw [preview, selectedItems]
    have hnil : items.filter (fun it => decide (it.id ∈ (∅ : Finset Nat)) &&
        (filtered_items items seed_order selected_seeds).contains it) = [] := by
      rw [List.filter_eq_nil_iff]
      intro it _
      simp
    rw [hnil]
    rfl

/-! ### Label construction -/

theorem filter_map_families (as : List Author) :
    (as.filter (fun a => a.family ≠ "")).map (fun a => a.family) = specFamilies as := by
  induction as with
  | nil => rfl
  | cons a as ih =>
    have ih' := ih
    rw [specFamilies] at ih'
    by_cases hf : a.family = ""
    · simp [List.filter_cons, specFamilies, List.filterMap_cons, hf]
      simpa using ih'
    · simp [List.filter_cons, specFamilies, List.filterMap_cons, hf]
      simpa using ih'

theorem authors_label_eq_spec (as : List Author) :
    authors_label as = specAuthorsLabel as := by
  rw [authors_label, specAuthorsLabel, filter_map_families]

theorem short_eq_specTruncate (s : String) : short s = specTruncate s := by
  simp only [short, shortL, specTruncate]
  by_cases h : (stripL s.data).length ≤ MAX_TITLE_LENGTH
  · rw [if_pos h, if_neg (not_lt.mpr h)]
  · rw [if_neg h, if_pos (lt_of_not_le h)]

/-- C4 as stated fails on the code at three concrete inputs: a title whose
stripped form is within the threshold is still shortened by an initial
strip (no ellipsis appended, unlike the claim's truncation rule); a present
year `0` renders as `n.d.`, not `"0"`; and a present-but-empty title falls
through to the free-text fallback rather than being used. -/
theorem C4_label_counterexample :
    (fetch_item_for_doi (fun _ => some cexMetaPad) oracleCit "D" none "BibTeX" =
        some ⟨"D", "Unknown, n.d. — " ++ aNinety, "CITE"⟩ ∧
      "Unknown, n.d. — " ++ aNinety ≠
        "Unknown, n.d. — " ++ claimTitleComponent cexMetaPad.title none "D") ∧
    (fetch_item_for_doi (fun _ => some cexMetaYearZero) oracleCit "D" none "BibTeX" =
        some ⟨"D", "Unknown, n.d. — T", "CITE"⟩ ∧
      ("Unknown, n.d. — T" : String) ≠ "Unknown, 0 — T") ∧
    (fetch_item_for_doi (fun _ => some cexMetaEmptyTitle) oracleCit "D"
        (some ⟨some "U"⟩) "BibTeX" = some ⟨"D", "Unknown, n.d. — U", "CITE"⟩ ∧
      ("Unknown, n.d. — U" : String) ≠ "Unknown, n.d. — " ++
        claimTitleComponent cexMetaEmptyTitle.title (some "U") "D") := by
  refine ⟨⟨by decide, by decide⟩, ⟨by decide, by decide⟩, ⟨by decide, by decide⟩⟩

/-- C4, amended: when both fetches succeed, the produced item's label is
`"{authors}, {year} — {title}"` where the author component follows the
Unknown / single / `A & B` / `A et al.` rule over the non-empty family
names; the year component is the stringified year when present and nonzero,
else `n.d.`; and the title component is the first non-empty of metadata
title, free-text fallback and identifier, stripped of surrounding
whitespace and truncated past 90 characters with a trimmed single-ellipsis
suffix. -/
theorem C4_label_construction_amended (metaOf : String → Option Meta)
    (citOf : String → String → Option String) (d : String)
    (raw : Option RegRef) (fmt : String) (m : Meta) (c : String)
    (hm : metaOf d = some m) (hc : citOf d fmt = some c) :
    ∃ it, fetch_item_for_doi metaOf citOf d raw fmt = some it ∧
      it.label = specAuthorsLabel m.authors ++ ", " ++ specYearLabel m.year ++
        " — " ++ specTruncate (specTitleSource m.title
          (raw.bind (fun r => r.unstructured)) d) := by
  rw [fetch_item_for_doi, hm]
  simp only [hc]
  refine ⟨_, rfl, ?_⟩
  have hy : (match m.year with
      | some y => if y = 0 then "n.d." else toString y
      | none => "n.d.") = specYearLabel m.year := by
    cases m.year with
    | none => rfl
    | some y => rfl
  simp only [authors_label_eq_spec, short_eq_specTruncate, hy]
  rfl

/-- Closed instance of `C4_label_construction_amended` at the spec's
formatting example (one author `Smith`, year 2020, an overlong title). -/
theorem C4_label_construction_amended_witness :
    ∃ it, fetch_item_for_doi (fun _ => some exMetaSmith) oracleCit
        "10.1/d" none "BibTeX" = some it ∧
      it.label = specAuthorsLabel exMetaSmith.authors ++ ", " ++
        specYearLabel exMetaSmith.year ++ " — " ++
        specTruncate (specTitleSource exMetaSmith.title none "10.1/d") :=
  C4_label_construction_amended (fun _ => some exMetaSmith) oracleCit
    "10.1/d" none "BibTeX" exMetaSmith "CITE" rfl rfl

end JustDoiIt
